import Mathlib

/-!
Verification development for the pax runtime scene-graph engine
(`pax-core`): a shallow embedding of the raycaster, the mount/unmount
bookkeeping, the stack-frame/adoptee machinery, the vtable property
update, the anchor desugaring of the layout transform, and the per-tick
traversal event order, together with theorems settling the specified
properties against these embeddings.
-/

namespace PaxCore

/-! ## Raycaster model (pax-core/src/engine.rs)

A render node as seen by the raycaster.  `hitRect` abstracts the
per-primitive `ray_cast_test(&ray, &tab)`: a rectangle primitive tests the
(inverse-transformed) point against its bounds, while components and other
non-raycastable nodes never hit (`none`).  `isClipping` mirrors
`RenderNode::is_clipping`.  Children are stored in declaration order, as in
`get_rendering_children`. -/
inductive RNode where
  | mk (id : Nat) (isClipping : Bool) (hitRect : Option (Int × Int × Int × Int))
      (children : List RNode)

def RNode.id : RNode → Nat
  | .mk i _ _ _ => i

def RNode.isClipping : RNode → Bool
  | .mk _ c _ _ => c

def RNode.hitRect : RNode → Option (Int × Int × Int × Int)
  | .mk _ _ h _ => h

def RNode.children : RNode → List RNode
  | .mk _ _ _ cs => cs

/-- The per-node `ray_cast_test(&ray, &tab)` result: a node with a hit
rectangle hits exactly the points inside it; a node with no hit rectangle
(e.g. a `Component`, which is invisible to raycasting) never hits. -/
def rayCastTest (ray : Int × Int) (n : RNode) : Bool :=
  match n.hitRect with
  | some r => decide (r.1 ≤ ray.1 ∧ ray.1 ≤ r.2.2.1 ∧ r.2.1 ≤ ray.2 ∧ ray.2 ≤ r.2.2.2)
  | none => false

mutual
/-- The `repeat_expanded_node_cache` produced by
`recurse_traverse_render_tree` (engine.rs): each visited node is appended
to the cache BEFORE its children are visited (engine.rs line 664 precedes
the child loop at line 675), and children are iterated in REVERSE
declaration order (`children.iter().rev()`).  Each cache entry records the
node together with its chain of `parent_repeat_expanded_node` ancestors
(nearest parent first). -/
def buildCache (anc : List RNode) : RNode → List (RNode × List RNode)
  | .mk i c h cs =>
      (RNode.mk i c h cs, anc) :: buildCacheChildren (RNode.mk i c h cs :: anc) cs

/-- Processes a child list exactly as the `.rev()` iteration does: the cache
receives the subtrees of later-declared children first. -/
def buildCacheChildren (anc : List RNode) : List RNode → List (RNode × List RNode)
  | [] => []
  | c :: rest => buildCacheChildren anc rest ++ buildCache anc c
end

/-- The ancestor walk of `get_topmost_element_beneath_ray` (engine.rs lines
768-781): the candidate is kept only when every clipping ancestor passes its
own hit test at the ray. -/
def clippingSatisfied (ray : Int × Int) (anc : List RNode) : Bool :=
  anc.all (fun a => !a.isClipping || rayCastTest ray a)

/-- The candidate list scanned by `get_topmost_element_beneath_ray`
(engine.rs lines 746-754): the cache is reversed, then `remove(0)` deletes
the FIRST element of the reversed list (the cache is never empty, since the
root is always pushed, so `remove(0)` is `drop 1`). -/
def raycastCandidates (root : RNode) : List (RNode × List RNode) :=
  ((buildCache [] root).reverse).drop 1

/-- The scan loop of `get_topmost_element_beneath_ray` (engine.rs lines
757-790): the first candidate that passes its own hit test and whose
clipping ancestors all pass is returned; otherwise no hit. -/
def get_topmost_element_beneath_ray (root : RNode) (ray : Int × Int) :
    Option (RNode × List RNode) :=
  (raycastCandidates root).find?
    (fun e => rayCastTest ray e.1 && clippingSatisfied ray e.2)

/-- Modelled from the spec's words, for the refinement comparison in claim
C1: scan the reversed cache with EXACTLY the root element excluded from the
candidate set.  The root is the unique cache entry with an empty ancestor
chain. -/
def get_topmost_spec_root_excluded (root : RNode) (ray : Int × Int) :
    Option (RNode × List RNode) :=
  (((buildCache [] root).reverse).filter (fun e => !e.2.isEmpty)).find?
    (fun e => rayCastTest ray e.1 && clippingSatisfied ray e.2)

/-! ## Mount/unmount bookkeeping (pax-core/src/engine.rs)

`InstanceRegistry` keeps `mounted_set : HashSet<Vec<u64>>` keyed by
`id_chain`.  We model the set as a duplicate-free list of id chains. -/

abbrev IdChain := List Nat

/-- The `mark_mounted` insertion (engine.rs line 463): `HashSet::insert`. -/
def mark_mounted (mounted : List IdChain) (c : IdChain) : List IdChain :=
  if c ∈ mounted then mounted else c :: mounted

/-- The mount phase of one node visit in `recurse_traverse_render_tree`
(engine.rs lines 563-595): if the id chain is not in the mounted set, the
`did_mount` handlers fire (second component `true`) and the chain is marked
mounted immediately afterwards; otherwise nothing fires. -/
def visitMountPhase (mounted : List IdChain) (c : IdChain) : List IdChain × Bool :=
  if c ∈ mounted then (mounted, false) else (mark_mounted mounted c, true)

/-- The unmount phase at the end of one node visit (engine.rs lines
712-719): when the node is marked for unmount (own flag or inherited),
`will_unmount` fires and the id chain is removed from the mounted set. -/
def visitUnmountPhase (mounted : List IdChain) (c : IdChain) (marked : Bool) :
    List IdChain :=
  if marked then mounted.filter (fun d => d ≠ c) else mounted

/-- One complete node visit: mount phase first (before children), unmount
phase after rendering.  Returns the new mounted set and whether the mount
handlers fired during this visit. -/
def visitNode (mounted : List IdChain) (c : IdChain) (marked : Bool) :
    List IdChain × Bool :=
  let step := visitMountPhase mounted c
  (visitUnmountPhase step.1 c marked, step.2)

/-- A sequence of node visits across one or more traversals, each visit
given as (id chain, marked-for-unmount flag).  Returns the final mounted
set and the trace of (id chain, mount fired) per visit. -/
def runVisits (mounted : List IdChain) : List (IdChain × Bool) →
    List IdChain × List (IdChain × Bool)
  | [] => (mounted, [])
  | (c, fl) :: rest =>
      let step := visitNode mounted c fl
      let next := runVisits step.1 rest
      (next.1, (c, step.2) :: next.2)

/-- How many times the mount handlers fired for chain `c` in a trace. -/
def countMountFires (c : IdChain) (trace : List (IdChain × Bool)) : Nat :=
  (trace.filter (fun e => decide (e.1 = c) && e.2)).length

/-! ## Runtime stack frames and adoptee flattening (pax-core/src/runtime.rs) -/

/-- An adoptee render node as relevant to `process_adoptee_recursive`:
`should_flatten` marks transparent nodes (`Repeat`/`Conditional`), and
`children` are the node's rendering children (for a transparent node these
are materialized by computing its properties first). -/
inductive ANode where
  | mk (id : Nat) (shouldFlatten : Bool) (children : List ANode)

def ANode.id : ANode → Nat
  | .mk i _ _ => i

def ANode.shouldFlatten : ANode → Bool
  | .mk _ f _ => f

def ANode.children : ANode → List ANode
  | .mk _ _ cs => cs

mutual
/-- `Runtime::process_adoptee_recursive` (runtime.rs lines 112-124).  The
first component is the returned flattened node list; the second component
is the effect log of nodes whose `compute_properties` was invoked (the
source calls `compute_properties` on every `should_flatten` adoptee before
recursing into its rendering children). -/
def process_adoptee_recursive : ANode → List ANode × List Nat
  | .mk i f cs =>
      if f then
        let rest := process_adoptee_list cs
        (rest.1, i :: rest.2)
      else
        ([ANode.mk i f cs], [])

/-- The `iter().map(...).flatten()` over a list of adoptees, in source
order (runtime.rs lines 97-101 and 118-120). -/
def process_adoptee_list : List ANode → List ANode × List Nat
  | [] => ([], [])
  | a :: rest =>
      let ra := process_adoptee_recursive a
      let rr := process_adoptee_list rest
      (ra.1 ++ rr.1, ra.2 ++ rr.2)
end

/-- A runtime stack frame (runtime.rs `StackFrame`): its flattened adoptee
list, an optional timeline (modelled by its `playhead_position`), the
shadow flag, and an optional parent frame (encoded by the two
constructors). -/
inductive StackFrameM where
  | root (adoptees : List ANode) (timeline : Option Nat) (shadow : Bool)
  | child (adoptees : List ANode) (timeline : Option Nat) (shadow : Bool)
      (parent : StackFrameM)

def StackFrameM.adoptees : StackFrameM → List ANode
  | .root a _ _ => a
  | .child a _ _ _ => a

def StackFrameM.timeline : StackFrameM → Option Nat
  | .root _ t _ => t
  | .child _ t _ _ => t

/-- The frame built by `Runtime::push_stack_frame` (runtime.rs lines
82-110): the stored adoptees are the flattened expansion of the unexpanded
adoptees. -/
def built_stack_frame (parent : Option StackFrameM) (unexpanded : List ANode)
    (timeline : Option Nat) (shadow : Bool) : StackFrameM :=
  let adoptees := (process_adoptee_list unexpanded).1
  match parent with
  | none => StackFrameM.root adoptees timeline shadow
  | some p => StackFrameM.child adoptees timeline shadow p

/-- `Runtime::push_stack_frame` acting on the runtime stack: the parent of
the new frame is the current top of the stack (`peek_stack_frame`). -/
def push_stack_frame (stack : List StackFrameM) (unexpanded : List ANode)
    (timeline : Option Nat) (shadow : Bool) : List StackFrameM :=
  built_stack_frame stack.head? unexpanded timeline shadow :: stack

/-- `StackFrame::nth_adoptee` (runtime.rs lines 233-311, live code at
234-237): a direct index into the already-flattened adoptee list; a miss
returns no value. -/
def nth_adoptee (f : StackFrameM) (n : Nat) : Option ANode :=
  match f.adoptees[n]? with
  | some i => some i
  | none => none

/-- `StackFrame::get_timeline_playhead_position` (runtime.rs lines
173-189): a frame with no timeline defers to its parent; a chain with no
timeline at all yields 0. -/
def get_timeline_playhead_position : StackFrameM → Nat
  | .root _ none _ => 0
  | .root _ (some t) _ => t
  | .child _ none _ p => get_timeline_playhead_position p
  | .child _ (some t) _ _ => t

/-- The frame together with its ancestor chain, nearest first. -/
def frameChain : StackFrameM → List StackFrameM
  | .root a t s => [StackFrameM.root a t s]
  | .child a t s p => StackFrameM.child a t s p :: frameChain p

/-- Modelled from the spec's words, for the refinement comparison in claim
C10: the playhead position of the NEAREST frame in the chain that carries a
timeline, and 0 when no frame in the chain carries one. -/
def nearest_timeline_playhead (f : StackFrameM) : Nat :=
  match (frameChain f).find? (fun g => g.timeline.isSome) with
  | some g => g.timeline.getD 0
  | none => 0

/-! ## Vtable property updates (pax-core/src/declarative_macros.rs)

The erased expression-result coproduct (`Box<dyn Any>` holding a
`TypesCoproduct` variant) is modelled by a closed universe of payload
types; `downcast` models `Box<dyn Any>::downcast::<V>`. -/

/-- The static type a property may carry (a representative closed set). -/
inductive PaxTy where
  | size
  | str
  | bool

/-- The Lean type denoted by a `PaxTy`. -/
@[reducible] def PaxTy.denote : PaxTy → Type
  | .size => Int
  | .str => String
  | .bool => Bool

/-- An erased value as produced by an expression-table closure. -/
inductive PaxValue where
  | vSize (i : Int)
  | vString (s : String)
  | vBool (b : Bool)

/-- `downcast::<V>` on an erased value: succeeds exactly when the payload
variant matches the requested static type. -/
def downcast : (t : PaxTy) → PaxValue → Option t.denote
  | .size, .vSize i => some i
  | .str, .vString s => some s
  | .bool, .vBool b => some b
  | .size, .vString _ => none
  | .size, .vBool _ => none
  | .str, .vSize _ => none
  | .str, .vBool _ => none
  | .bool, .vSize _ => none
  | .bool, .vString _ => none

/-- A `dyn PropertyInstance<V>`: literal when `vtableId = none`,
expression-backed when it carries a vtable id. -/
structure PropertyInstanceM (t : PaxTy) where
  vtableId : Option Nat
  value : t.denote

/-- `handle_vtable_update` (declarative_macros.rs lines 13-27).  The
expression table is abstracted as the total evaluation
`table : Nat → PaxValue` (the table closure evaluated at the node's
scope).  The `panic!()` on downcast failure is modelled as `none`; a
returned `some` is the surviving property. -/
def handle_vtable_update (t : PaxTy) (table : Nat → PaxValue)
    (p : PropertyInstanceM t) : Option (PropertyInstanceM t) :=
  match p.vtableId with
  | some id =>
      match downcast t (table id) with
      | some v => some { p with value := v }
      | none => none
  | none => some p

/-- `handle_vtable_update_optional` (declarative_macros.rs lines 36-44): an
absent optional property is skipped with no effect. -/
def handle_vtable_update_optional (t : PaxTy) (table : Nat → PaxValue)
    (op : Option (PropertyInstanceM t)) : Option (Option (PropertyInstanceM t)) :=
  match op with
  | some p => (handle_vtable_update t table p).map some
  | none => some none

/-! ## Anchor desugaring (pax-core/src/layout.rs)

The anchor pre-translation inside `Transform2D::compute_transform2d_matrix`
(layout.rs lines 189-209).  `f64` values are modelled as rationals; the
Rust tuple fields `node_size.0` / `node_size.1` are `.1` / `.2` here. -/

/-- A `Size` value: pixels, percent, or the combined pixel+percent form. -/
inductive SizeM where
  | pixels (pix : ℚ)
  | percent (per : ℚ)
  | combined (pix : ℚ) (per : ℚ)

/-- The translation components of `anchor_transform` exactly as computed by
the source (layout.rs lines 190-206): note that the `Size::Combined` arm of
the SECOND (anchor-y) component multiplies by `node_size.0` (the node's
width) in the source, unlike the `Size::Percent` arm directly above it,
which multiplies by `node_size.1` (the node's height). -/
def anchor_transform (anchor : Option (SizeM × SizeM)) (node_size : ℚ × ℚ) :
    ℚ × ℚ :=
  match anchor with
  | some a =>
      (match a.1 with
       | SizeM.pixels pix => -pix
       | SizeM.percent per => -node_size.1 * (per / 100)
       | SizeM.combined pix per => -pix + -node_size.1 * (per / 100),
       match a.2 with
       | SizeM.pixels pix => -pix
       | SizeM.percent per => -node_size.2 * (per / 100)
       | SizeM.combined pix per => -pix + -node_size.1 * (per / 100))
  | none => (0, 0)

/-! ## Per-tick traversal event order (pax-core/src/engine.rs)

The observable per-node steps of `recurse_traverse_render_tree`, as an
event log.  Viewport culling (`is_viewport_culled`, engine.rs line 691) is
abstracted as a predicate on the node id, standing for "this node's
transform-and-bounds does not intersect the viewport". -/

/-- One observable lifecycle step of the traversal, tagged by node id. -/
inductive TEvent where
  | computeProperties (id : Nat)
  | mountCheck (id : Nat)
  | willRender (id : Nat)
  | nativePatches (id : Nat)
  | render (id : Nat)
  | willUnmount (id : Nat)
  | didRender (id : Nat)

/-- A node of the render tree as relevant to the traversal order: its id,
its own presence in the `marked_for_unmount_set`, and its children in
declaration order. -/
inductive TNode where
  | mk (id : Nat) (markedForUnmount : Bool) (children : List TNode)

mutual
/-- The event log of `recurse_traverse_render_tree` (engine.rs lines
545-724) for one node: compute properties (line 558), mount bookkeeping
(563-595), will-render (627-644), recursion into children with the
inherited unmount flag (671-681), native patches (697 or 705, both
branches), the node's own draw call only when not viewport-culled (701-708),
will-unmount when marked (713-719), did-render (722). -/
def recurse_traverse_render_tree (cull : Nat → Bool) (inheritedUnmount : Bool) :
    TNode → List TEvent
  | .mk i mk_ cs =>
      let marked := inheritedUnmount || mk_
      [TEvent.computeProperties i, TEvent.mountCheck i, TEvent.willRender i]
        ++ traverseChildren cull marked cs
        ++ [TEvent.nativePatches i]
        ++ (if cull i then [] else [TEvent.render i])
        ++ (if marked then [TEvent.willUnmount i] else [])
        ++ [TEvent.didRender i]

/-- The `children.iter().rev().for_each(...)` loop (engine.rs lines
675-681): later-declared children are visited first. -/
def traverseChildren (cull : Nat → Bool) (inheritedUnmount : Bool) :
    List TNode → List TEvent
  | [] => []
  | c :: rest =>
      traverseChildren cull inheritedUnmount rest
        ++ recurse_traverse_render_tree cull inheritedUnmount c
end

/-- Keep every traversal event except the draw call of a culled node. -/
def keptWhenCulling (cull : Nat → Bool) (e : TEvent) : Bool :=
  match e with
  | TEvent.render i => !cull i
  | _ => true

/-! ## Concrete instances used by witnesses and counterexamples -/

/-- A raycastable rectangle covering x,y in 0..100, declared first. -/
def wRectA : RNode := RNode.mk 1 false (some (0, 0, 100, 100)) []

/-- A raycastable rectangle covering x,y in 0..100, declared second. -/
def wRectB : RNode := RNode.mk 2 false (some (0, 0, 100, 100)) []

/-- A root component (invisible to raycasting) with children [A, B]. -/
def wSceneRoot : RNode := RNode.mk 0 false none [wRectA, wRectB]

/-- A lone raycastable rectangle, the single child of `cexRoot`. -/
def cexChild : RNode := RNode.mk 1 false (some (0, 0, 100, 100)) []

/-- A root component whose only child is `cexChild`. -/
def cexRoot : RNode := RNode.mk 0 false none [cexChild]

/-- A child extending past its clipping parent, covering 0..20. -/
def clipInner : RNode := RNode.mk 2 false (some (0, 0, 20, 20)) []

/-- A clipping container covering only 0..10, with `clipInner` inside. -/
def clipFrame : RNode := RNode.mk 1 true (some (0, 0, 10, 10)) [clipInner]

/-- A non-raycastable sibling declared before the clipping container. -/
def clipSibling : RNode := RNode.mk 3 false none []

/-- A root component with children [clipSibling, clipFrame]. -/
def clipRoot : RNode := RNode.mk 0 false none [clipSibling, clipFrame]

/-! ## Helper lemmas -/

theorem find?_of_prefix_false {α : Type} (pred : α → Bool) :
    ∀ (l1 : List α) (x : α) (l2 : List α), (∀ e ∈ l1, pred e = false) →
      pred x = true → (l1 ++ x :: l2).find? pred = some x := by
  intro l1
  induction l1 with
  | nil =>
      intro x l2 _ hx
      simpa using List.find?_cons_of_pos l2 hx
  | cons a rest ih =>
      intro x l2 hall hx
      have ha : pred a = false := hall a (List.mem_cons_self a rest)
      rw [List.cons_append, List.find?_cons_of_neg _ (by simp [ha])]
      exact ih x l2 (fun e he => hall e (List.mem_cons_of_mem a he)) hx

mutual
theorem noFlatten_processed_node (a : ANode) :
    ∀ b ∈ (process_adoptee_recursive a).1, b.shouldFlatten = false := by
  cases a with
  | mk i f cs =>
      intro b hb
      cases f with
      | true =>
          simp [process_adoptee_recursive] at hb
          exact noFlatten_processed_list cs b hb
      | false =>
          simp [process_adoptee_recursive] at hb
          subst hb
          rfl

theorem noFlatten_processed_list (l : List ANode) :
    ∀ b ∈ (process_adoptee_list l).1, b.shouldFlatten = false := by
  cases l with
  | nil =>
      intro b hb
      rw [process_adoptee_list] at hb
      simp at hb
  | cons a rest =>
      intro b hb
      rw [process_adoptee_list] at hb
      simp only [List.mem_append] at hb
      cases hb with
      | inl h => exact noFlatten_processed_node a b h
      | inr h => exact noFlatten_processed_list rest b h
end

/-! ## Claim theorems -/

/-- Claim C4: when a stack frame is pushed, each adoptee flagged transparent
(`should_flatten`) has its properties computed (it appears in the effect
log) and is replaced, preserving source order, by the recursive flattening
of its rendering children, while each non-transparent adoptee is kept
unchanged in place; the frame stores the flattened result. -/
theorem c4_push_flattens_transparent_adoptees :
    (∀ xs ys : List ANode,
        process_adoptee_list (xs ++ ys) =
          ((process_adoptee_list xs).1 ++ (process_adoptee_list ys).1,
           (process_adoptee_list xs).2 ++ (process_adoptee_list ys).2))
    ∧ (∀ a : ANode, a.shouldFlatten = true →
        process_adoptee_recursive a =
          ((process_adoptee_list a.children).1,
           a.id :: (process_adoptee_list a.children).2))
    ∧ (∀ a : ANode, a.shouldFlatten = false →
        process_adoptee_recursive a = ([a], []))
    ∧ (∀ (parent : Option StackFrameM) (unexpanded : List ANode)
          (t : Option Nat) (sh : Bool),
        (built_stack_frame parent unexpanded t sh).adoptees =
          (process_adoptee_list unexpanded).1) := by
  refine ⟨?_, ?_, ?_, ?_⟩
  · intro xs ys
    induction xs with
    | nil => simp [process_adoptee_list]
    | cons a rest ih => simp [process_adoptee_list, ih]
  · intro a ha
    cases a with
    | mk i f cs =>
        cases f with
        | true => simp [process_adoptee_recursive, ANode.children, ANode.id]
        | false => simp [ANode.shouldFlatten] at ha
  · intro a ha
    cases a with
    | mk i f cs =>
        cases f with
        | true => simp [ANode.shouldFlatten] at ha
        | false => simp [process_adoptee_recursive]
  · intro parent unexpanded t sh
    cases parent <;> rfl

/-- Claim C4 witness: a transparent adoptee with one plain child is
computed and replaced by that child; a run with a non-transparent sibling
preserves order. -/
theorem c4_push_flattens_transparent_adoptees_witness :
    (ANode.mk 3 true [ANode.mk 4 false []]).shouldFlatten = true
    ∧ process_adoptee_recursive (ANode.mk 3 true [ANode.mk 4 false []]) =
        ((process_adoptee_list (ANode.mk 3 true [ANode.mk 4 false []]).children).1,
         3 :: (process_adoptee_list (ANode.mk 3 true [ANode.mk 4 false []]).children).2) :=
  ⟨rfl, c4_push_flattens_transparent_adoptees.2.1 _ rfl⟩

/-- Claim C9: the adoptee list stored on a newly pushed stack frame contains
no node for which `should_flatten` is true; this holds for every frame ever
pushed by `push_stack_frame`. -/
theorem c9_pushed_adoptees_never_transparent
    (stack : List StackFrameM) (unexpanded : List ANode) (t : Option Nat)
    (sh : Bool) (f : StackFrameM)
    (hpush : push_stack_frame stack unexpanded t sh = f :: stack) :
    ∀ a ∈ f.adoptees, a.shouldFlatten = false := by
  intro a ha
  have hf : f = built_stack_frame stack.head? unexpanded t sh :=
    (List.cons.injEq _ _ _ _ ▸ hpush).1.symm
  subst hf
  have hado : (built_stack_frame stack.head? unexpanded t sh).adoptees =
      (process_adoptee_list unexpanded).1 := by
    cases stack.head? <;> rfl
  rw [hado] at ha
  exact noFlatten_processed_list unexpanded a ha

/-- Claim C9 witness: pushing a frame whose unexpanded adoptees contain a
transparent node yields a stored list whose sole element is not
transparent. -/
theorem c9_pushed_adoptees_never_transparent_witness :
    push_stack_frame [] [ANode.mk 0 true [ANode.mk 1 false []]] none false =
      built_stack_frame none [ANode.mk 0 true [ANode.mk 1 false []]] none false :: []
    ∧ ANode.mk 1 false [] ∈
        (built_stack_frame none [ANode.mk 0 true [ANode.mk 1 false []]] none false).adoptees
    ∧ (ANode.mk 1 false []).shouldFlatten = false :=
  ⟨rfl, by simp [built_stack_frame, process_adoptee_list, process_adoptee_recursive,
      StackFrameM.adoptees],
   c9_pushed_adoptees_never_transparent [] [ANode.mk 0 true [ANode.mk 1 false []]]
     none false _ rfl (ANode.mk 1 false [])
     (by simp [built_stack_frame, process_adoptee_list, process_adoptee_recursive,
       StackFrameM.adoptees])⟩

/-- Claim C7: `nth_adoptee n` returns the n-th element of the frame's
already-flattened adoptee list when n is in range, and no value (not an
error) when n is out of range; on a pushed frame the indexed list is the
flattened expansion of the unexpanded adoptees. -/
theorem c7_nth_adoptee_indexing :
    (∀ (f : StackFrameM) (n : Nat) (h : n < f.adoptees.length),
        nth_adoptee f n = some (f.adoptees.get ⟨n, h⟩))
    ∧ (∀ (f : StackFrameM) (n : Nat), f.adoptees.length ≤ n →
        nth_adoptee f n = none)
    ∧ (∀ (parent : Option StackFrameM) (unexpanded : List ANode)
          (t : Option Nat) (sh : Bool) (n : Nat),
        nth_adoptee (built_stack_frame parent unexpanded t sh) n =
          ((process_adoptee_list unexpanded).1)[n]?) := by
  have hbase : ∀ (f : StackFrameM) (n : Nat), nth_adoptee f n = f.adoptees[n]? := by
    intro f n
    unfold nth_adoptee
    cases f.adoptees[n]? <;> rfl
  refine ⟨?_, ?_, ?_⟩
  · intro f n h
    rw [hbase, List.getElem?_eq_getElem h]
    simp
  · intro f n h
    rw [hbase, List.getElem?_eq_none h]
  · intro parent unexpanded t sh n
    rw [hbase]
    cases parent <;> rfl

/-- Claim C7 witness: index 0 of a one-element adoptee list is returned;
index 5 is out of range and yields no value. -/
theorem c7_nth_adoptee_indexing_witness :
    nth_adoptee (StackFrameM.root [ANode.mk 1 false []] none false) 0 =
      some (ANode.mk 1 false [])
    ∧ nth_adoptee (StackFrameM.root [ANode.mk 1 false []] none false) 5 = none :=
  ⟨c7_nth_adoptee_indexing.1 (StackFrameM.root [ANode.mk 1 false []] none false) 0
     (by decide),
   c7_nth_adoptee_indexing.2.1 (StackFrameM.root [ANode.mk 1 false []] none false) 5
     (by decide)⟩

/-- Claim C5: on an expression-backed property the table result is assigned
exactly when the downcast to the property's static type succeeds and the
engine panics (modelled `none`) when it fails; a literal property is left
unchanged; an absent optional property is skipped with no effect. -/
theorem c5_vtable_update_semantics (t : PaxTy) (table : Nat → PaxValue)
    (p : PropertyInstanceM t) :
    (∀ id, p.vtableId = some id →
        (∀ v, downcast t (table id) = some v →
            handle_vtable_update t table p = some ⟨p.vtableId, v⟩)
        ∧ (downcast t (table id) = none →
            handle_vtable_update t table p = none))
    ∧ (p.vtableId = none → handle_vtable_update t table p = some p)
    ∧ handle_vtable_update_optional t table none = some none
    ∧ (∀ q, handle_vtable_update_optional t table (some q) =
        (handle_vtable_update t table q).map some) := by
  refine ⟨?_, ?_, rfl, fun q => rfl⟩
  · intro id hid
    constructor
    · intro v hv
      simp [handle_vtable_update, hid, hv]
    · intro hv
      simp [handle_vtable_update, hid, hv]
  · intro h
    simp [handle_vtable_update, h]

/-- Claim C5 witness: a matching erased value is assigned; a mismatched
variant makes the update fatal. -/
theorem c5_vtable_update_semantics_witness :
    handle_vtable_update PaxTy.size (fun _ => PaxValue.vSize 5)
      ⟨some 7, (3 : Int)⟩ = some ⟨some 7, (5 : Int)⟩
    ∧ handle_vtable_update PaxTy.size (fun _ => PaxValue.vString "x")
      ⟨some 7, (3 : Int)⟩ = none :=
  ⟨((c5_vtable_update_semantics PaxTy.size (fun _ => PaxValue.vSize 5)
      ⟨some 7, (3 : Int)⟩).1 7 rfl).1 5 rfl,
   ((c5_vtable_update_semantics PaxTy.size (fun _ => PaxValue.vString "x")
      ⟨some 7, (3 : Int)⟩).1 7 rfl).2 rfl⟩

/-- Claim C6 (code bug): for anchor_y, the `Size::Percent` arm resolves
against the node's own height (−100·(50/100) = −50 for node size
(200, 100)), but the `Size::Combined` arm resolves its percent part against
the node's own WIDTH, yielding −200·(50/100) = −100 instead of the −50 the
claim (and the adjacent `Percent` arm) prescribe. -/
theorem c6_anchor_combined_y_uses_width :
    anchor_transform (some (SizeM.pixels 0, SizeM.percent 50)) (200, 100) =
      (0, -50)
    ∧ anchor_transform (some (SizeM.pixels 0, SizeM.combined 0 50)) (200, 100) =
      (0, -100)
    ∧ anchor_transform (some (SizeM.pixels 0, SizeM.combined 0 50)) (200, 100) ≠
      (0, -50) := by
  refine ⟨?_, ?_, ?_⟩ <;> norm_num [anchor_transform]

/-- Claim C10: `get_timeline_playhead_position` returns the playhead of the
nearest frame in the parent chain that carries a timeline, and 0 when no
frame in the chain carries one. -/
theorem c10_playhead_is_nearest_timeline (f : StackFrameM) :
    get_timeline_playhead_position f = nearest_timeline_playhead f := by
  induction f with
  | root a t s =>
      cases t <;>
        simp [get_timeline_playhead_position, nearest_timeline_playhead,
          frameChain, StackFrameM.timeline, List.find?]
  | child a t s p ih =>
      cases t with
      | none =>
          simp [get_timeline_playhead_position, nearest_timeline_playhead,
            frameChain, StackFrameM.timeline, List.find?] at ih ⊢
          exact ih
      | some v =>
          simp [get_timeline_playhead_position, nearest_timeline_playhead,
            frameChain, StackFrameM.timeline, List.find?]

theorem mem_visitNode_other (m : List IdChain) (c cother : IdChain) (fl : Bool)
    (h : c ≠ cother) : c ∈ (visitNode m cother fl).1 ↔ c ∈ m := by
  simp only [visitNode, visitMountPhase, visitUnmountPhase, mark_mounted]
  by_cases hm : cother ∈ m <;> cases fl <;>
    simp [hm, List.mem_filter, h, List.mem_cons]

theorem visitNode_self_mounted (m : List IdChain) (c : IdChain) (h : c ∈ m) :
    visitNode m c false = (m, false) := by
  simp [visitNode, visitMountPhase, visitUnmountPhase, h]

theorem visitNode_self_unmounted (m : List IdChain) (c : IdChain) (h : c ∉ m) :
    visitNode m c false = (c :: m, true) := by
  simp [visitNode, visitMountPhase, visitUnmountPhase, mark_mounted, h]

theorem runVisits_no_fire_while_mounted (c : IdChain) :
    ∀ (vs : List (IdChain × Bool)) (m : List IdChain),
      (∀ v ∈ vs, v.1 = c → v.2 = false) → c ∈ m →
      countMountFires c (runVisits m vs).2 = 0 ∧ c ∈ (runVisits m vs).1 := by
  intro vs
  induction vs with
  | nil =>
      intro m _ hm
      exact ⟨rfl, hm⟩
  | cons v rest ih =>
      intro m hall hm
      obtain ⟨c1, f1⟩ := v
      by_cases hc : c1 = c
      · subst hc
        have hf : f1 = false := hall (c1, f1) (List.mem_cons_self _ _) rfl
        subst hf
        have hstep := visitNode_self_mounted m c1 hm
        have hrest := ih m (fun v hv => hall v (List.mem_cons_of_mem _ hv)) hm
        refine ⟨?_, ?_⟩
        · simp only [runVisits, hstep, countMountFires] at hrest ⊢
          simpa using hrest.1
        · simp only [runVisits, hstep]
          exact hrest.2
      · have hpres : c ∈ (visitNode m c1 f1).1 :=
          (mem_visitNode_other m c c1 f1 (fun h => hc h.symm)).mpr hm
        have hrest := ih (visitNode m c1 f1).1
          (fun v hv => hall v (List.mem_cons_of_mem _ hv)) hpres
        refine ⟨?_, ?_⟩
        · simp only [runVisits, countMountFires] at hrest ⊢
          simpa [hc] using hrest.1
        · simp only [runVisits]
          exact hrest.2

theorem runVisits_single_fire_when_unmounted (c : IdChain) :
    ∀ (vs : List (IdChain × Bool)) (m : List IdChain),
      (∀ v ∈ vs, v.1 = c → v.2 = false) → c ∉ m →
      countMountFires c (runVisits m vs).2 =
        if vs.any (fun v => decide (v.1 = c)) then 1 else 0 := by
  intro vs
  induction vs with
  | nil =>
      intro m _ _
      rfl
  | cons v rest ih =>
      intro m hall hm
      obtain ⟨c1, f1⟩ := v
      by_cases hc : c1 = c
      · subst hc
        have hf : f1 = false := hall (c1, f1) (List.mem_cons_self _ _) rfl
        subst hf
        have hstep := visitNode_self_unmounted m c1 hm
        have hrest := runVisits_no_fire_while_mounted c1 rest (c1 :: m)
          (fun v hv => hall v (List.mem_cons_of_mem _ hv))
          (List.mem_cons_self _ _)
        simp only [runVisits, hstep, countMountFires] at hrest ⊢
        simp [hrest.1]
      · have hpres : c ∉ (visitNode m c1 f1).1 := by
          rw [mem_visitNode_other m c c1 f1 (fun h => hc h.symm)]
          exact hm
        have hrest := ih (visitNode m c1 f1).1
          (fun v hv => hall v (List.mem_cons_of_mem _ hv)) hpres
        simp only [runVisits, countMountFires] at hrest ⊢
        simpa [hc] using hrest

/-- Claim C3: mount handlers fire during a traversal visit iff the id chain
is absent from the mounted set; the chain is marked mounted immediately
after firing; over any run of visits in which the chain is never marked for
unmount, mount fires exactly once (and zero times if already mounted); an
unmount removes the chain from the mounted set, and the next visit of the
same chain fires mount again. -/
theorem c3_mount_fires_exactly_once_per_lifetime :
    (∀ (m : List IdChain) (c : IdChain),
        ((visitMountPhase m c).2 = true ↔ c ∉ m) ∧ c ∈ (visitMountPhase m c).1)
    ∧ (∀ (m : List IdChain) (c : IdChain) (vs : List (IdChain × Bool)),
        (∀ v ∈ vs, v.1 = c → v.2 = false) → c ∉ m →
        countMountFires c (runVisits m vs).2 =
          if vs.any (fun v => decide (v.1 = c)) then 1 else 0)
    ∧ (∀ (m : List IdChain) (c : IdChain) (vs : List (IdChain × Bool)),
        (∀ v ∈ vs, v.1 = c → v.2 = false) → c ∈ m →
        countMountFires c (runVisits m vs).2 = 0)
    ∧ (∀ (m : List IdChain) (c : IdChain), c ∉ (visitNode m c true).1)
    ∧ (∀ (m : List IdChain) (c : IdChain),
        (visitMountPhase (visitNode m c true).1 c).2 = true) := by
  have hout : ∀ (m : List IdChain) (c : IdChain), c ∉ (visitNode m c true).1 := by
    intro m c
    simp [visitNode, visitMountPhase, visitUnmountPhase, List.mem_filter]
  refine ⟨?_, ?_, ?_, hout, ?_⟩
  · intro m c
    by_cases hm : c ∈ m <;>
      simp [visitMountPhase, mark_mounted, hm]
  · intro m c vs hall hm
    exact runVisits_single_fire_when_unmounted c vs m hall hm
  · intro m c vs hall hm
    exact (runVisits_no_fire_while_mounted c vs m hall hm).1
  · intro m c
    simp [visitMountPhase, hout m c]

/-- Claim C3 witness: starting from an empty mounted set, two consecutive
visits of the same id chain with no unmount fire mount exactly once; after
a visit marked for unmount, the chain is absent and mount fires again. -/
theorem c3_mount_fires_exactly_once_per_lifetime_witness :
    countMountFires [5] (runVisits [] [([5], false), ([5], false)]).2 =
      (if [(([5] : IdChain), false), ([5], false)].any
          (fun v => decide (v.1 = [5])) then 1 else 0)
    ∧ (visitMountPhase (visitNode [[5]] [5] true).1 [5]).2 = true :=
  ⟨c3_mount_fires_exactly_once_per_lifetime.2.1 [] [5]
     [([5], false), ([5], false)] (by decide) (by decide),
   c3_mount_fires_exactly_once_per_lifetime.2.2.2.2 [[5]] [5]⟩

mutual
theorem cull_filter_node (cull : Nat → Bool) (inh : Bool) (n : TNode) :
    recurse_traverse_render_tree cull inh n =
      (recurse_traverse_render_tree (fun _ => false) inh n).filter
        (keptWhenCulling cull) := by
  cases n with
  | mk i mk_ cs =>
      have hc := cull_filter_children cull (inh || mk_) cs
      by_cases h : cull i = true <;>
        cases hm : inh || mk_ <;>
          simp [recurse_traverse_render_tree, hm, List.filter_append,
            keptWhenCulling, hc, h, hm ▸ hc]

theorem cull_filter_children (cull : Nat → Bool) (inh : Bool) (l : List TNode) :
    traverseChildren cull inh l =
      (traverseChildren (fun _ => false) inh l).filter (keptWhenCulling cull) := by
  cases l with
  | nil => rfl
  | cons c rest =>
      simp [traverseChildren, List.filter_append,
        cull_filter_node cull inh c, cull_filter_children cull inh rest]
end

/-- Claim C8: the per-tick traversal with viewport culling produces exactly
the event log of the traversal without culling, minus only the draw calls
of the culled nodes: property recomputation, mount bookkeeping, will-render,
native-patch computation, recursion into children, unmount handling and
did-render all run unchanged. -/
theorem c8_cull_skips_only_own_draw_call (cull : Nat → Bool) (inh : Bool)
    (n : TNode) :
    recurse_traverse_render_tree cull inh n =
      (recurse_traverse_render_tree (fun _ => false) inh n).filter
        (keptWhenCulling cull) :=
  cull_filter_node cull inh n

/-- Claim C1 counterexample: for a root component with a single raycastable
child and a ray inside that child, the code returns no hit (the `remove(0)`
after reversal deletes the child's cache entry, the last node of the
traversal, while the root entry stays), whereas the claimed scan — reverse
traversal order with exactly the root excluded — returns the child. -/
theorem c1_scan_order_counterexample :
    get_topmost_element_beneath_ray cexRoot (50, 50) = none
    ∧ get_topmost_spec_root_excluded cexRoot (50, 50) =
        some (cexChild, [cexRoot]) :=
  ⟨rfl, rfl⟩

/-- Claim C1 (amended): the raycaster scans the reversed per-tick cache with
the FIRST element of the reversed order (the last node visited by the
traversal, not the root) excluded, and returns the first candidate passing
its own hit test whose clipping ancestors all pass; in particular, for a
root with fully overlapping sibling rectangles [A, B] declared in that
order and a ray hitting B, the raycast returns B. -/
theorem c1_amended_raycast (rid : Nat) (rclip : Bool)
    (rrect : Option (Int × Int × Int × Int)) (A B : RNode) (p : Int × Int)
    (hA : A.children = []) (hB : B.children = [])
    (hBhit : rayCastTest p B = true)
    (hroot : rclip = false ∨
        rayCastTest p (RNode.mk rid rclip rrect [A, B]) = true) :
    get_topmost_element_beneath_ray (RNode.mk rid rclip rrect [A, B]) p =
      some (B, [RNode.mk rid rclip rrect [A, B]]) := by
  cases A with
  | mk ia ca ra csa =>
      cases B with
      | mk ib cb rb csb =>
          simp only [RNode.children] at hA hB
          subst hA
          subst hB
          have hsat : clippingSatisfied p
              [RNode.mk rid rclip rrect
                [RNode.mk ia ca ra [], RNode.mk ib cb rb []]] = true := by
            cases hroot with
            | inl h => simp [clippingSatisfied, RNode.isClipping, h]
            | inr h => simp [clippingSatisfied, h]
          simp [get_topmost_element_beneath_ray, raycastCandidates, buildCache,
            buildCacheChildren, List.find?, hBhit, hsat]

/-- Claim C1 witness: the spec's scenario — root component with fully
overlapping rectangles [A, B], raycast at their shared centroid — returns
B under the amended scan rule. -/
theorem c1_amended_raycast_witness :
    get_topmost_element_beneath_ray wSceneRoot (50, 50) =
      some (wRectB, [wSceneRoot]) :=
  c1_amended_raycast 0 false none wRectA wRectB (50, 50) rfl rfl rfl (Or.inl rfl)

/-- Claim C2: a scanned candidate that passes its own hit test is rejected
whenever some clipping ancestor fails its own hit test at the same point,
and is returned whenever its clipping ancestors all pass and no earlier
candidate in scan order fully passes. -/
theorem c2_clipping_ancestor_rejection (root : RNode) (p : Int × Int)
    (n : RNode) (anc : List RNode) (l1 l2 : List (RNode × List RNode))
    (hsplit : raycastCandidates root = l1 ++ (n, anc) :: l2)
    (hhit : rayCastTest p n = true) :
    ((∃ a ∈ anc, a.isClipping = true ∧ rayCastTest p a = false) →
        get_topmost_element_beneath_ray root p ≠ some (n, anc))
    ∧ (clippingSatisfied p anc = true →
        (∀ e ∈ l1, ¬(rayCastTest p e.1 = true ∧ clippingSatisfied p e.2 = true)) →
        get_topmost_element_beneath_ray root p = some (n, anc)) := by
  constructor
  · rintro ⟨a, ha, haclip, hafail⟩ hret
    simp only [get_topmost_element_beneath_ray] at hret
    have hp := List.find?_some hret
    have hsat : clippingSatisfied p anc = true := by
      simpa using (Bool.and_eq_true _ _ |>.mp hp).2
    have hall := List.all_eq_true.mp hsat a ha
    simp [haclip, hafail] at hall
  · intro hsat hprev
    have hfalse : ∀ e ∈ l1,
        (fun e : RNode × List RNode =>
          rayCastTest p e.1 && clippingSatisfied p e.2) e = false := by
      intro e he
      have h := hprev e he
      cases hA : rayCastTest p e.1 <;>
        cases hB : clippingSatisfied p e.2 <;> simp_all
    simp only [get_topmost_element_beneath_ray, raycastCandidates] at hsplit ⊢
    rw [hsplit]
    exact find?_of_prefix_false _ l1 (n, anc) l2 hfalse (by simp [hhit, hsat])

/-- Claim C2 witness: a ray at (15,15) inside the clipped container's child
(bounds 0..20) but outside the clipping container itself (bounds 0..10):
the child passes its own hit test, yet the raycaster never returns it — and
indeed the whole raycast yields no hit. -/
theorem c2_clipping_ancestor_rejection_witness :
    (((∃ a ∈ [clipFrame, clipRoot],
          a.isClipping = true ∧ rayCastTest (15, 15) a = false) →
        get_topmost_element_beneath_ray clipRoot (15, 15) ≠
          some (clipInner, [clipFrame, clipRoot]))
    ∧ (clippingSatisfied (15, 15) [clipFrame, clipRoot] = true →
        (∀ e ∈ ([] : List (RNode × List RNode)),
            ¬(rayCastTest (15, 15) e.1 = true ∧
              clippingSatisfied (15, 15) e.2 = true)) →
        get_topmost_element_beneath_ray clipRoot (15, 15) =
          some (clipInner, [clipFrame, clipRoot])))
    ∧ get_topmost_element_beneath_ray clipRoot (15, 15) = none :=
  ⟨c2_clipping_ancestor_rejection clipRoot (15, 15) clipInner
     [clipFrame, clipRoot] [] [(clipFrame, [clipRoot]), (clipRoot, [])]
     rfl rfl,
   rfl⟩

end PaxCore
